import Mathlib

/-!
Verification of the `lstig.general` Ansible collection sources:
`plugins/modules/yaml_file.py` (key-path edits in a YAML document) and
`plugins/filter/core.py` (template helper functions).

The YAML data model is a tree of scalars, sequences and mappings; a mapping is
an ordered association list of string keys (Python dict keys are unique, so
the functions below implement dict semantics on such lists).  Fallible Python
code is modelled in `Except PyErr`; the distinct Python exception classes that
the module's control flow distinguishes (`KeyError` is caught, `TypeError` and
`AttributeError` propagate) are separate constructors.
-/

namespace YamlSpec

/-- Python exception classes relevant to the module's control flow. -/
inductive PyErr where
  | keyError
  | typeError
  | attrError
  | indexError
deriving DecidableEq, Repr

/-- In-memory YAML tree: scalars, sequences, and ordered string-keyed mappings. -/
inductive Yaml where
  | null
  | bool (b : Bool)
  | int (n : Int)
  | str (s : String)
  | seq (xs : List Yaml)
  | map (es : List (String × Yaml))
deriving Repr

/-- Dictionary lookup `d[k]` on an association list (first match). -/
def lookupKey (k : String) : List (String × Yaml) → Option Yaml
  | [] => none
  | (k1, v) :: rest => if k1 = k then some v else lookupKey k rest

/-- Dictionary assignment `d[k] = v`: replace the value at an existing key in
place, or append a new entry (Python dict insertion order semantics). -/
def setKey (k : String) (v : Yaml) : List (String × Yaml) → List (String × Yaml)
  | [] => [(k, v)]
  | (k1, w) :: rest => if k1 = k then (k1, v) :: rest else (k1, w) :: setKey k v rest

/-- Dictionary deletion `del d[k]`: drop the entry for `k` (dict keys are
unique, so dropping every occurrence agrees with dropping the one entry). -/
def eraseKey (k : String) : List (String × Yaml) → List (String × Yaml)
  | [] => []
  | (k1, w) :: rest => if k1 = k then eraseKey k rest else (k1, w) :: eraseKey k rest

/-- Whether a value is a mapping (`isinstance(v, Mapping)`). -/
def Yaml.isMap : Yaml → Bool
  | .map _ => true
  | _ => false

/-- Python truthiness of a YAML value (`bool(v)`): `None`, `False`, `0`, `''`,
`[]` and `{}` are falsy. -/
def pyTruthy : Yaml → Bool
  | .null => false
  | .bool b => b
  | .int n => n != 0
  | .str s => s != ""
  | .seq xs => !xs.isEmpty
  | .map es => !es.isEmpty

mutual

/-- Python structural equality `==` on YAML values: mappings compare as
unordered key-value sets (equal size and every key of the left side present on
the right with an equal value), sequences element-wise in order, and Python's
`True == 1` / `False == 0` numeric identification of booleans. -/
def pyEq : Yaml → Yaml → Bool
  | .null, .null => true
  | .bool a, .bool b => a == b
  | .bool a, .int n => (if a then (1 : Int) else 0) == n
  | .int n, .bool b => n == (if b then (1 : Int) else 0)
  | .int a, .int b => a == b
  | .str a, .str b => a == b
  | .seq xs, .seq ys => pyEqList xs ys
  | .map xs, .map ys => xs.length == ys.length && pyEqEntries xs ys
  | _, _ => false

/-- Element-wise `pyEq` on sequences. -/
def pyEqList : List Yaml → List Yaml → Bool
  | [], [] => true
  | x :: xs, y :: ys => pyEq x y && pyEqList xs ys
  | _, _ => false

/-- Every entry of the first list is present in the second with a `pyEq` value. -/
def pyEqEntries : List (String × Yaml) → List (String × Yaml) → Bool
  | [], _ => true
  | (k, v) :: rest, ys =>
    (match lookupKey k ys with
     | some w => pyEq v w
     | none => false) && pyEqEntries rest ys

end

/-- Pairwise-distinct keys of an association list. -/
def keysNodup : List (String × Yaml) → Bool
  | [] => true
  | (k, _) :: rest => (lookupKey k rest).isNone && keysNodup rest

mutual

/-- Well-formed YAML value: every mapping in the tree has pairwise-distinct
keys (always true of trees decoded from Python dicts). -/
def WF : Yaml → Bool
  | .seq xs => WFList xs
  | .map es => keysNodup es && WFEntries es
  | _ => true

/-- `WF` on every element of a sequence. -/
def WFList : List Yaml → Bool
  | [] => true
  | x :: xs => WF x && WFList xs

/-- `WF` on every value of a mapping. -/
def WFEntries : List (String × Yaml) → Bool
  | [] => true
  | (_, v) :: rest => WF v && WFEntries rest

end

namespace YamlFile

/-!
Embedding of `plugins/modules/yaml_file.py`.
-/

/-- `dig(dct, keys)` (yaml_file.py lines 129-133): drill down into a dictionary
with the given list of keys via `dct = dct[key]`.  Indexing a dict with a
missing key raises `KeyError`; string-indexing any non-dict value raises
`TypeError`. -/
def dig : Yaml → List String → Except PyErr Yaml
  | d, [] => .ok d
  | .map es, k :: ks =>
    match lookupKey k es with
    | some v => dig v ks
    | none => .error .keyError
  | _, _ :: _ => .error .typeError

/-- `dct.get(k, default)`: get-with-default on a dict; calling `.get` on a
non-dict raises `AttributeError`. -/
def pyGet (d : Yaml) (k : String) (dflt : Yaml) : Except PyErr Yaml :=
  match d with
  | .map es => .ok ((lookupKey k es).getD dflt)
  | _ => .error .attrError

/-- `d[k] = v`: item assignment; raises `TypeError` on a non-dict. -/
def setItem (d : Yaml) (k : String) (v : Yaml) : Except PyErr Yaml :=
  match d with
  | .map es => .ok (.map (setKey k v es))
  | _ => .error .typeError

/-- The loop body of `merge(dct, other)` (yaml_file.py lines 136-143) over the
entries of `other`: for each `(k, v)`, if `v` is a mapping then
`dct[k] = merge(dct.get(k, {}), v)` (the recursive call is inlined as
`mergeEntries` on `v`'s entries), otherwise `dct[k] = v`.  In-place mutation of
`dct` is modelled by threading the updated value. -/
def mergeEntries : Yaml → List (String × Yaml) → Except PyErr Yaml
  | d, [] => .ok d
  | d, (k, v) :: rest =>
    match v with
    | .map ws =>
      match pyGet d k (.map []) with
      | .error e => .error e
      | .ok b =>
        match mergeEntries b ws with
        | .error e => .error e
        | .ok m =>
          match setItem d k m with
          | .error e => .error e
          | .ok d2 => mergeEntries d2 rest
    | _ =>
      match setItem d k v with
      | .error e => .error e
      | .ok d2 => mergeEntries d2 rest

/-- `merge(dct, other)` (yaml_file.py lines 136-143): iterate `other.items()`
(raises `AttributeError` if `other` is not a mapping, which never happens in
the module's calls) updating `dct`. -/
def merge (dct other : Yaml) : Except PyErr Yaml :=
  match other with
  | .map es => mergeEntries dct es
  | _ => .error .attrError

/-- The patch-tree construction of `run_module` (yaml_file.py lines 195-201):
a single-branch mapping whose one leaf holds `value` at the dotted path. -/
def buildPatch : List String → Yaml → Yaml
  | [], _ => .map []
  | [k], v => .map [(k, v)]
  | k :: ks, v => .map [(k, buildPatch ks v)]

/-- The `state == 'absent'` deletion (yaml_file.py lines 207-209):
`e = dig(data, keys[:-1]); del e[keys[-1]]`, with the in-place `del` rendered
as rebuilding the spine.  `del` on a dict missing the key raises `KeyError`;
on a non-dict it raises `TypeError`; `keys[-1]` on an empty list would raise
`IndexError` (unreachable: `key.split('.')` is never empty). -/
def delAt : Yaml → List String → Except PyErr Yaml
  | _, [] => .error .indexError
  | .map es, [k] =>
    if (lookupKey k es).isSome then .ok (.map (eraseKey k es)) else .error .keyError
  | _, [_] => .error .typeError
  | .map es, k :: ks =>
    match lookupKey k es with
    | some v =>
      match delAt v ks with
      | .ok v2 => .ok (.map (setKey k v2 es))
      | .error e => .error e
    | none => .error .keyError
  | _, _ :: _ :: _ => .error .typeError

/-- `yaml.load(text) or {}` (yaml_file.py line 174): a falsy decoded root
(None from an empty file, but also `0`, `''`, `[]`, `false`) is replaced by
the empty mapping. -/
def pyCoerce (d : Yaml) : Yaml :=
  if pyTruthy d then d else .map []

/-- Desired state of the managed key. -/
inductive St where
  | present
  | absent
deriving DecidableEq, Repr

/-- Observable outcome of `run_module`: the `changed` flag, the result message
(source strings `"OK"`, `"key added"`, `"value changed"`, `"key removed"` --
the spec's enum `OK`/`key_added`/`value_changed`/`key_removed`), the
post-mutation in-memory document, and the diff snapshots. -/
structure RunResult where
  changed : Bool
  msg : String
  data : Yaml
  diffBefore : String
  diffAfter : String
deriving Repr

/-- The `state == 'present'` decide-and-mutate logic (yaml_file.py lines
181-204): read the current value with `dig` (only `KeyError` is caught),
compare with Python `!=`, and on a difference deep-merge the single-branch
patch tree into the document. -/
def runPresent (data : Yaml) (keys : List String) (value : Yaml) :
    Except PyErr (Bool × String × Yaml) :=
  match dig data keys with
  | .ok current =>
    if pyEq value current then .ok (false, "OK", data)
    else
      match merge data (buildPatch keys value) with
      | .ok d2 => .ok (true, "value changed", d2)
      | .error e => .error e
  | .error .keyError =>
    match merge data (buildPatch keys value) with
    | .ok d2 => .ok (true, "key added", d2)
    | .error e => .error e
  | .error e => .error e

/-- The `state == 'absent'` decide-and-mutate logic (yaml_file.py lines
206-214): delete the leaf; `KeyError` anywhere means nothing to do. -/
def runAbsent (data : Yaml) (keys : List String) :
    Except PyErr (Bool × String × Yaml) :=
  match delAt data keys with
  | .ok d2 => .ok (true, "key removed", d2)
  | .error .keyError => .ok (false, "OK", data)
  | .error e => .error e

/-- `run_module` (yaml_file.py lines 146-244) after the file read and YAML
decode: `rawText` is the text read from the destination (empty when the file
was missing or empty) and `loaded` the codec's decoding of it.  Captures the
diff-before snapshot, applies the falsy-root coercion `or {}`, decides and
mutates, and then -- when diff output was requested -- reaches the malformed
`with StringIO as buff:` block (line 218), which enters a `with` on the
`StringIO` class itself and so raises `TypeError` before any after-snapshot is
produced.  File persistence is the external filesystem collaborator and is
not modelled. -/
def runModule (rawText : String) (loaded : Yaml) (keys : List String)
    (value : Yaml) (state : St) (diffMode : Bool) : Except PyErr RunResult :=
  let diffBefore := if diffMode then (if rawText = "" then "\n" else rawText) else ""
  let data := pyCoerce loaded
  match (match state with
         | .present => runPresent data keys value
         | .absent => runAbsent data keys) with
  | .error e => .error e
  | .ok (changed, msg, d2) =>
    if diffMode then .error .typeError
    else .ok ⟨changed, msg, d2, diffBefore, ""⟩

end YamlFile

namespace FilterCore

/-!
Embedding of `plugins/filter/core.py`.
-/

/-- `dig(d, keys, default=None)` (core.py lines 14-19): sequentially perform
`d = d.get(key, default)` over the single `keys` argument (an iterable of
keys).  `.get` never raises for a missing key, but calling `.get` on a
non-mapping value (for example the default `None` reached after a miss, with
keys remaining) raises `AttributeError`. -/
def dig : Yaml → List String → Yaml → Except PyErr Yaml
  | d, [], _ => .ok d
  | .map es, k :: ks, dflt => dig ((lookupKey k es).getD dflt) ks dflt
  | _, _ :: _, _ => .error .attrError

/-- The type of a registered filter function (core.py registers only `dig`). -/
def FilterFn := Yaml → List String → Yaml → Except PyErr Yaml

/-- The `FILTERS` registry (core.py line 6), populated by the `@filter`
decorator: the only decorated function is `dig`. -/
def FILTERS : List (String × FilterFn) := [("dig", dig)]

/-- `FilterModule.filters()` (core.py lines 22-24): returns the registry. -/
def filters : List (String × FilterFn) := FILTERS

end FilterCore

/-!  Association-list lemmas. -/

theorem lookupKey_setKey_self (k : String) (v : Yaml) (es : List (String × Yaml)) :
    lookupKey k (setKey k v es) = some v := by
  induction es with
  | nil => simp [setKey, lookupKey]
  | cons p rest ih =>
    obtain ⟨k1, w⟩ := p
    by_cases h : k1 = k
    · simp [setKey, h, lookupKey]
    · simp [setKey, h, lookupKey, ih]

theorem lookupKey_setKey_ne {x k : String} (h : x ≠ k) (v : Yaml)
    (es : List (String × Yaml)) :
    lookupKey x (setKey k v es) = lookupKey x es := by
  have hkx : ¬ k = x := fun he => h he.symm
  induction es with
  | nil => simp [setKey, lookupKey, hkx]
  | cons p rest ih =>
    obtain ⟨k1, w⟩ := p
    by_cases h1 : k1 = k
    · subst h1
      simp [setKey, lookupKey, hkx]
    · simp [setKey, h1, lookupKey, ih]

theorem lookupKey_eraseKey_self (k : String) (es : List (String × Yaml)) :
    lookupKey k (eraseKey k es) = none := by
  induction es with
  | nil => simp [eraseKey, lookupKey]
  | cons p rest ih =>
    obtain ⟨k1, w⟩ := p
    by_cases h : k1 = k
    · simp [eraseKey, h, ih]
    · simp [eraseKey, h, lookupKey, ih]

theorem lookupKey_eraseKey_ne {x k : String} (h : x ≠ k)
    (es : List (String × Yaml)) :
    lookupKey x (eraseKey k es) = lookupKey x es := by
  have hkx : ¬ k = x := fun he => h he.symm
  induction es with
  | nil => simp [eraseKey]
  | cons p rest ih =>
    obtain ⟨k1, w⟩ := p
    by_cases h1 : k1 = k
    · subst h1
      simp [eraseKey, lookupKey, hkx, ih]
    · simp [eraseKey, h1, lookupKey, ih]

theorem setKey_of_not_mem {k : String} {es : List (String × Yaml)}
    (h : lookupKey k es = none) (v : Yaml) :
    setKey k v es = es ++ [(k, v)] := by
  induction es with
  | nil => simp [setKey]
  | cons p rest ih =>
    obtain ⟨k1, w⟩ := p
    by_cases h1 : k1 = k
    · simp [lookupKey, h1] at h
    · simp [lookupKey, h1] at h
      simp [setKey, h1, ih h]

theorem lookupKey_isSome_of_mem {p : String × Yaml} {es : List (String × Yaml)}
    (h : p ∈ es) : (lookupKey p.1 es).isSome := by
  induction es with
  | nil => simp at h
  | cons q rest ih =>
    obtain ⟨k1, w⟩ := q
    rcases List.mem_cons.mp h with h1 | h1
    · subst h1; simp [lookupKey]
    · by_cases h2 : k1 = p.1
      · simp [lookupKey, h2]
      · simp [lookupKey, h2, ih h1]

theorem lookupKey_append_none {x : String} {xs ys : List (String × Yaml)}
    (h1 : lookupKey x xs = none) (h2 : lookupKey x ys = none) :
    lookupKey x (xs ++ ys) = none := by
  induction xs with
  | nil => simpa using h2
  | cons p rest ih =>
    obtain ⟨k1, w⟩ := p
    by_cases hk : k1 = x
    · simp [lookupKey, hk] at h1
    · simp [lookupKey, hk] at h1 ⊢
      exact ih h1

theorem lookupKey_self_of_nodup {k : String} {v : Yaml} {es : List (String × Yaml)}
    (hnd : keysNodup es = true) (h : (k, v) ∈ es) :
    lookupKey k es = some v := by
  induction es with
  | nil => simp at h
  | cons p rest ih =>
    obtain ⟨k1, w⟩ := p
    simp only [keysNodup, Bool.and_eq_true, Option.isNone_iff_eq_none] at hnd
    rcases List.mem_cons.mp h with h1 | h1
    · injection h1 with h1a h1b
      subst h1a; subst h1b
      simp [lookupKey]
    · by_cases h2 : k1 = k
      · exfalso
        subst h2
        have hs := lookupKey_isSome_of_mem h1
        rw [hnd.1] at hs
        simp at hs
      · simp [lookupKey, h2, ih hnd.2 h1]

/-!  Lemmas about the falsy-root coercion and `dig`. -/

theorem pyCoerce_map (es : List (String × Yaml)) :
    YamlFile.pyCoerce (.map es) = .map es := by
  cases es <;> simp [YamlFile.pyCoerce, pyTruthy]

theorem dig_keyError_elim {D : Yaml} {k : String} {ks : List String}
    (h : YamlFile.dig D (k :: ks) = .error .keyError) :
    ∃ es, D = .map es ∧
      (lookupKey k es = none ∨
       ∃ v, lookupKey k es = some v ∧ YamlFile.dig v ks = .error .keyError) := by
  cases D with
  | map es =>
    refine ⟨es, rfl, ?_⟩
    cases hl : lookupKey k es with
    | none => exact Or.inl rfl
    | some v =>
      refine Or.inr ⟨v, rfl, ?_⟩
      rw [YamlFile.dig, hl] at h
      exact h
  | null => simp [YamlFile.dig] at h
  | bool b => simp [YamlFile.dig] at h
  | int n => simp [YamlFile.dig] at h
  | str s => simp [YamlFile.dig] at h
  | seq xs => simp [YamlFile.dig] at h

theorem dig_ok_elim {D W : Yaml} {k : String} {ks : List String}
    (h : YamlFile.dig D (k :: ks) = .ok W) :
    ∃ es v, D = .map es ∧ lookupKey k es = some v ∧ YamlFile.dig v ks = .ok W := by
  cases D with
  | map es =>
    cases hl : lookupKey k es with
    | none => rw [YamlFile.dig, hl] at h; exact absurd h (by simp)
    | some v =>
      rw [YamlFile.dig, hl] at h
      exact ⟨es, v, rfl, hl, h⟩
  | null => simp [YamlFile.dig] at h
  | bool b => simp [YamlFile.dig] at h
  | int n => simp [YamlFile.dig] at h
  | str s => simp [YamlFile.dig] at h
  | seq xs => simp [YamlFile.dig] at h

theorem dig_map_congr {es1 es2 : List (String × Yaml)} {x : String}
    (h : lookupKey x es1 = lookupKey x es2) (t : List String) :
    YamlFile.dig (.map es1) (x :: t) = YamlFile.dig (.map es2) (x :: t) := by
  rw [YamlFile.dig, YamlFile.dig, h]

theorem dig_nilMap_keyError (z : String) (t : List String) :
    YamlFile.dig (.map []) (z :: t) = .error .keyError := by
  rw [YamlFile.dig]; rfl

/-!  Well-formedness and reflexivity of Python equality. -/

theorem Yaml.sizeOf_pos (v : Yaml) : 0 < sizeOf v := by
  cases v <;> simp

theorem WFList_mem {xs : List Yaml} {x : Yaml} (h : WFList xs = true) (hx : x ∈ xs) :
    WF x = true := by
  induction xs with
  | nil => simp at hx
  | cons y ys ih =>
    rw [WFList, Bool.and_eq_true] at h
    rcases List.mem_cons.mp hx with h1 | h1
    · subst h1; exact h.1
    · exact ih h.2 h1

theorem WFEntries_mem {es : List (String × Yaml)} {p : String × Yaml}
    (h : WFEntries es = true) (hp : p ∈ es) : WF p.2 = true := by
  induction es with
  | nil => simp at hp
  | cons q qs ih =>
    obtain ⟨k1, w⟩ := q
    rw [WFEntries, Bool.and_eq_true] at h
    rcases List.mem_cons.mp hp with h1 | h1
    · subst h1; exact h.1
    · exact ih h.2 h1

theorem pyEqList_of_forall :
    ∀ xs : List Yaml, (∀ x ∈ xs, pyEq x x = true) → pyEqList xs xs = true := by
  intro xs h
  induction xs with
  | nil => rfl
  | cons x rest ih =>
    rw [pyEqList, Bool.and_eq_true]
    exact ⟨h x (by simp), ih fun y hy => h y (by simp [hy])⟩

theorem pyEqEntries_of_forall :
    ∀ xs ys : List (String × Yaml),
      (∀ p ∈ xs, lookupKey p.1 ys = some p.2 ∧ pyEq p.2 p.2 = true) →
      pyEqEntries xs ys = true := by
  intro xs ys h
  induction xs with
  | nil => rfl
  | cons p rest ih =>
    obtain ⟨k, v⟩ := p
    have hp := h (k, v) (by simp)
    rw [pyEqEntries, Bool.and_eq_true, hp.1]
    exact ⟨hp.2, ih fun q hq => h q (by simp [hq])⟩

theorem pyEq_refl_size :
    ∀ (n : Nat) (v : Yaml), sizeOf v ≤ n → WF v = true → pyEq v v = true := by
  intro n
  induction n with
  | zero =>
    intro v hsz _
    exact absurd hsz (by have := Yaml.sizeOf_pos v; omega)
  | succ n ih =>
    intro v hsz hwf
    cases v with
    | null => rfl
    | bool b => simp [pyEq]
    | int m => simp [pyEq]
    | str s => simp [pyEq]
    | seq xs =>
      rw [show pyEq (.seq xs) (.seq xs) = pyEqList xs xs from rfl]
      refine pyEqList_of_forall xs fun x hx => ?_
      have hmem := List.sizeOf_lt_of_mem hx
      have hsx : sizeOf (Yaml.seq xs) = 1 + sizeOf xs := by simp
      exact ih x (by omega) (WFList_mem hwf hx)
    | map es =>
      rw [show pyEq (.map es) (.map es)
            = ((es.length == es.length) && pyEqEntries es es) from rfl]
      rw [Bool.and_eq_true]
      refine ⟨by simp, pyEqEntries_of_forall es es fun p hp => ?_⟩
      rw [show WF (.map es) = (keysNodup es && WFEntries es) from rfl,
        Bool.and_eq_true] at hwf
      have hmem := List.sizeOf_lt_of_mem hp
      have hps : sizeOf p = 1 + sizeOf p.1 + sizeOf p.2 := by
        obtain ⟨a, b⟩ := p; simp
      have hes : sizeOf (Yaml.map es) = 1 + sizeOf es := by simp
      refine ⟨?_, ih p.2 (by omega) (WFEntries_mem hwf.2 hp)⟩
      exact lookupKey_self_of_nodup hwf.1 (by simpa using hp)

theorem pyEq_refl {v : Yaml} (hwf : WF v = true) : pyEq v v = true :=
  pyEq_refl_size (sizeOf v) v le_rfl hwf

/-!  Merging into fresh keys copies the patch verbatim. -/

theorem mergeEntries_fresh :
    ∀ (n : Nat) (ws : List (String × Yaml)), sizeOf ws ≤ n →
      keysNodup ws = true → WFEntries ws = true →
      ∀ acc : List (String × Yaml), (∀ p ∈ ws, lookupKey p.1 acc = none) →
      YamlFile.mergeEntries (.map acc) ws = .ok (.map (acc ++ ws)) := by
  intro n
  induction n with
  | zero =>
    intro ws hsz _ _ acc _
    cases ws with
    | nil => simp [YamlFile.mergeEntries]
    | cons p rest =>
      exfalso
      have : sizeOf (p :: rest) = 1 + sizeOf p + sizeOf rest := by simp
      omega
  | succ n ih =>
    intro ws hsz hnd hwf acc hfresh
    cases ws with
    | nil => simp [YamlFile.mergeEntries]
    | cons p rest =>
      obtain ⟨k, v⟩ := p
      rw [keysNodup, Bool.and_eq_true, Option.isNone_iff_eq_none] at hnd
      rw [WFEntries, Bool.and_eq_true] at hwf
      have hka : lookupKey k acc = none := hfresh (k, v) (by simp)
      have hsz1 : sizeOf ((k, v) :: rest) = 1 + (1 + sizeOf k + sizeOf v) + sizeOf rest := by
        simp
      have hrest_sz : sizeOf rest ≤ n := by omega
      have hfresh2 : ∀ q ∈ rest, lookupKey q.1 (acc ++ [(k, v)]) = none := by
        intro q hq
        have hqk : ¬ k = q.1 := by
          intro he
          have hs := lookupKey_isSome_of_mem hq
          rw [← he, hnd.1] at hs
          simp at hs
        refine lookupKey_append_none (hfresh q (by simp [hq])) ?_
        simp [lookupKey, hqk]
      have hset : setKey k v acc = acc ++ [(k, v)] := setKey_of_not_mem hka v
      have hnd2 : keysNodup rest = true := hnd.2
      have hwf2 : WFEntries rest = true := hwf.2
      cases v with
      | map ws2 =>
        have hvwf : (keysNodup ws2 && WFEntries ws2) = true := hwf.1
        rw [Bool.and_eq_true] at hvwf
        have hws2_sz : sizeOf ws2 ≤ n := by
          have : sizeOf (Yaml.map ws2) = 1 + sizeOf ws2 := by simp
          omega
        have hinner := ih ws2 hws2_sz hvwf.1 hvwf.2 [] (by intro q hq; rfl)
        rw [List.nil_append] at hinner
        simp only [YamlFile.mergeEntries, YamlFile.pyGet, hka, Option.getD_none,
          hinner, YamlFile.setItem, hset]
        rw [show acc ++ (k, Yaml.map ws2) :: rest = (acc ++ [(k, Yaml.map ws2)]) ++ rest by simp]
        exact ih rest hrest_sz hnd2 hwf2 _ hfresh2
      | null =>
        simp only [YamlFile.mergeEntries, YamlFile.setItem, hset]
        rw [show acc ++ (k, Yaml.null) :: rest = (acc ++ [(k, Yaml.null)]) ++ rest by simp]
        exact ih rest hrest_sz hnd2 hwf2 _ hfresh2
      | bool b =>
        simp only [YamlFile.mergeEntries, YamlFile.setItem, hset]
        rw [show acc ++ (k, Yaml.bool b) :: rest = (acc ++ [(k, Yaml.bool b)]) ++ rest by simp]
        exact ih rest hrest_sz hnd2 hwf2 _ hfresh2
      | int m =>
        simp only [YamlFile.mergeEntries, YamlFile.setItem, hset]
        rw [show acc ++ (k, Yaml.int m) :: rest = (acc ++ [(k, Yaml.int m)]) ++ rest by simp]
        exact ih rest hrest_sz hnd2 hwf2 _ hfresh2
      | str s =>
        simp only [YamlFile.mergeEntries, YamlFile.setItem, hset]
        rw [show acc ++ (k, Yaml.str s) :: rest = (acc ++ [(k, Yaml.str s)]) ++ rest by simp]
        exact ih rest hrest_sz hnd2 hwf2 _ hfresh2
      | seq xs =>
        simp only [YamlFile.mergeEntries, YamlFile.setItem, hset]
        rw [show acc ++ (k, Yaml.seq xs) :: rest = (acc ++ [(k, Yaml.seq xs)]) ++ rest by simp]
        exact ih rest hrest_sz hnd2 hwf2 _ hfresh2

theorem merge_nilBase {ws : List (String × Yaml)} (h : WF (.map ws) = true) :
    YamlFile.merge (.map []) (.map ws) = .ok (.map ws) := by
  rw [show WF (.map ws) = (keysNodup ws && WFEntries ws) from rfl,
    Bool.and_eq_true] at h
  have hm := mergeEntries_fresh (sizeOf ws) ws le_rfl h.1 h.2 []
    (by intro q hq; rfl)
  rw [List.nil_append] at hm
  exact hm

/-!  Single-entry merge steps (the patch tree has one entry per level). -/

theorem pyGet_map (es : List (String × Yaml)) (k : String) (dflt : Yaml) :
    YamlFile.pyGet (.map es) k dflt = .ok ((lookupKey k es).getD dflt) := rfl

theorem setItem_map (es : List (String × Yaml)) (k : String) (v : Yaml) :
    YamlFile.setItem (.map es) k v = .ok (.map (setKey k v es)) := rfl

theorem mergeEntries_cons_map (d : Yaml) (k : String) (ws rest : List (String × Yaml)) :
    YamlFile.mergeEntries d ((k, .map ws) :: rest) =
      match YamlFile.pyGet d k (.map []) with
      | .error e => .error e
      | .ok b =>
        match YamlFile.mergeEntries b ws with
        | .error e => .error e
        | .ok m =>
          match YamlFile.setItem d k m with
          | .error e => .error e
          | .ok d2 => YamlFile.mergeEntries d2 rest := rfl

theorem mergeEntries_single_nonmap {V : Yaml} (hV : V.isMap = false)
    (es : List (String × Yaml)) (k : String) :
    YamlFile.mergeEntries (.map es) [(k, V)] = .ok (.map (setKey k V es)) := by
  cases V with
  | map ws => simp [Yaml.isMap] at hV
  | null => rfl
  | bool b => rfl
  | int n => rfl
  | str s => rfl
  | seq xs => rfl

theorem mergeEntries_single_found {es : List (String × Yaml)} {k : String}
    {pws : List (String × Yaml)} {b m : Yaml}
    (hb : (lookupKey k es).getD (.map []) = b)
    (hm : YamlFile.mergeEntries b pws = .ok m) :
    YamlFile.mergeEntries (.map es) [(k, .map pws)] = .ok (.map (setKey k m es)) := by
  rw [mergeEntries_cons_map, pyGet_map, hb]
  simp only [hm, setItem_map, YamlFile.mergeEntries]

theorem mergeEntries_single_fresh {es : List (String × Yaml)} {k : String} {V : Yaml}
    (hnone : lookupKey k es = none) (hV : WF V = true) :
    YamlFile.mergeEntries (.map es) [(k, V)] = .ok (.map (setKey k V es)) := by
  cases V with
  | map ws =>
    exact mergeEntries_single_found (by rw [hnone]; rfl) (merge_nilBase hV)
  | null => rfl
  | bool b => rfl
  | int n => rfl
  | str s => rfl
  | seq xs => rfl

/-- A helper shape fact: the patch tree for a nonempty path is a mapping with
exactly one entry. -/
theorem buildPatch_cons (k2 : String) (ks2 : List String) (V : Yaml) :
    ∃ pv, YamlFile.buildPatch (k2 :: ks2) V = .map [(k2, pv)] := by
  cases ks2 with
  | nil => exact ⟨V, rfl⟩
  | cons a b => exact ⟨YamlFile.buildPatch (a :: b) V, rfl⟩

/-!  Merging the patch tree at a path that `dig` misses with `KeyError`. -/

theorem merge_buildPatch_add :
    ∀ (keys : List String) (D V : Yaml),
      YamlFile.dig D keys = .error .keyError → WF V = true →
      ∃ rs, YamlFile.merge D (YamlFile.buildPatch keys V) = .ok (.map rs) ∧
        YamlFile.dig (.map rs) keys = .ok V := by
  intro keys
  induction keys with
  | nil =>
    intro D V h _
    rw [YamlFile.dig] at h
    exact absurd h (by simp)
  | cons k ks ih =>
    intro D V h hV
    obtain ⟨es, rfl, hcase⟩ := dig_keyError_elim h
    cases ks with
    | nil =>
      have hnone : lookupKey k es = none := by
        rcases hcase with h1 | ⟨v, hv, hd⟩
        · exact h1
        · rw [YamlFile.dig] at hd; exact absurd hd (by simp)
      refine ⟨setKey k V es, ?_, ?_⟩
      · exact mergeEntries_single_fresh hnone hV
      · rw [YamlFile.dig, lookupKey_setKey_self]
        simp [YamlFile.dig]
    | cons k2 ks2 =>
      obtain ⟨pv, hpw⟩ := buildPatch_cons k2 ks2 V
      rcases hcase with hnone | ⟨v, hv, hd⟩
      · obtain ⟨rs2, hm2, hd2⟩ := ih (.map []) V (dig_nilMap_keyError k2 ks2) hV
        rw [hpw] at hm2
        refine ⟨setKey k (.map rs2) es, ?_, ?_⟩
        · rw [show YamlFile.merge (.map es) (YamlFile.buildPatch (k :: k2 :: ks2) V)
                = YamlFile.mergeEntries (.map es) [(k, YamlFile.buildPatch (k2 :: ks2) V)]
              from rfl, hpw]
          exact mergeEntries_single_found (by rw [hnone]; rfl) hm2
        · rw [YamlFile.dig, lookupKey_setKey_self]
          simpa using hd2
      · obtain ⟨rs2, hm2, hd2⟩ := ih v V hd hV
        rw [hpw] at hm2
        refine ⟨setKey k (.map rs2) es, ?_, ?_⟩
        · rw [show YamlFile.merge (.map es) (YamlFile.buildPatch (k :: k2 :: ks2) V)
                = YamlFile.mergeEntries (.map es) [(k, YamlFile.buildPatch (k2 :: ks2) V)]
              from rfl, hpw]
          exact mergeEntries_single_found (by rw [hv]; rfl) hm2
        · rw [YamlFile.dig, lookupKey_setKey_self]
          simpa using hd2

/-!  Merging the patch tree over an existing value (non-mapping replacement). -/

theorem dig_map_cons_ok {es : List (String × Yaml)} {k : String} {ks : List String}
    {W : Yaml} (h : YamlFile.dig (.map es) (k :: ks) = .ok W) :
    ∃ v, lookupKey k es = some v ∧ YamlFile.dig v ks = .ok W := by
  cases hl : lookupKey k es with
  | none => rw [YamlFile.dig, hl] at h; exact absurd h (by simp)
  | some v => rw [YamlFile.dig, hl] at h; exact ⟨v, rfl, h⟩

theorem merge_buildPatch_set :
    ∀ (keys : List String) (D V1 V2 : Yaml), keys ≠ [] →
      YamlFile.dig D keys = .ok V1 → V2.isMap = false →
      ∃ rs, YamlFile.merge D (YamlFile.buildPatch keys V2) = .ok (.map rs) ∧
        YamlFile.dig (.map rs) keys = .ok V2 := by
  intro keys
  induction keys with
  | nil => intro D V1 V2 hne _ _; exact absurd rfl hne
  | cons k ks ih =>
    intro D V1 V2 _ h hV2
    obtain ⟨es, v, rfl, hv, hd⟩ := dig_ok_elim h
    cases ks with
    | nil =>
      refine ⟨setKey k V2 es, mergeEntries_single_nonmap hV2 es k, ?_⟩
      rw [YamlFile.dig, lookupKey_setKey_self]
      simp [YamlFile.dig]
    | cons k2 ks2 =>
      obtain ⟨pv, hpw⟩ := buildPatch_cons k2 ks2 V2
      obtain ⟨rs2, hm2, hd2⟩ := ih v V1 V2 (by simp) hd hV2
      rw [hpw] at hm2
      refine ⟨setKey k (.map rs2) es, ?_, ?_⟩
      · rw [show YamlFile.merge (.map es) (YamlFile.buildPatch (k :: k2 :: ks2) V2)
              = YamlFile.mergeEntries (.map es) [(k, YamlFile.buildPatch (k2 :: ks2) V2)]
            from rfl, hpw]
        exact mergeEntries_single_found (by rw [hv]; rfl) hm2
      · rw [YamlFile.dig, lookupKey_setKey_self]
        simpa using hd2

/-!  Deletion of a present leaf: success, idempotence and frame. -/

theorem delAt_of_dig :
    ∀ (keys : List String) (es : List (String × Yaml)) (W : Yaml),
      YamlFile.dig (.map es) keys = .ok W → keys ≠ [] →
      ∃ rs, YamlFile.delAt (.map es) keys = .ok (.map rs) ∧
        YamlFile.dig (.map rs) keys = .error .keyError ∧
        YamlFile.delAt (.map rs) keys = .error .keyError ∧
        (∀ c x y t1 t2, keys = c ++ y :: t2 → x ≠ y →
          YamlFile.dig (.map rs) (c ++ x :: t1) = YamlFile.dig (.map es) (c ++ x :: t1)) := by
  intro keys
  induction keys with
  | nil => intro es W _ hne; exact absurd rfl hne
  | cons k ks ih =>
    intro es W h _
    obtain ⟨v, hv, hd⟩ := dig_map_cons_ok h
    cases ks with
    | nil =>
      refine ⟨eraseKey k es, ?_, ?_, ?_, ?_⟩
      · simp [YamlFile.delAt, hv]
      · simp [YamlFile.dig, lookupKey_eraseKey_self]
      · simp [YamlFile.delAt, lookupKey_eraseKey_self]
      · intro c x y t1 t2 hc hxy
        cases c with
        | nil =>
          injection hc with hc1 hc2
          subst hc1
          exact dig_map_congr (lookupKey_eraseKey_ne hxy es) t1
        | cons c0 c' =>
          injection hc with hc1 hc2
          exact absurd hc2.symm (by simp)
    | cons k2 ks2 =>
      obtain ⟨es2, hves⟩ : ∃ es2, v = .map es2 := by
        obtain ⟨es2, v2, hveq, _, _⟩ := dig_ok_elim hd
        exact ⟨es2, hveq⟩
      subst hves
      obtain ⟨rs2, hdel2, hdig2, hdel2b, hframe2⟩ := ih es2 W hd (by simp)
      refine ⟨setKey k (.map rs2) es, ?_, ?_, ?_, ?_⟩
      · simp [YamlFile.delAt, hv, hdel2]
      · rw [YamlFile.dig, lookupKey_setKey_self]
        simpa using hdig2
      · simp [YamlFile.delAt, lookupKey_setKey_self, hdel2b]
      · intro c x y t1 t2 hc hxy
        cases c with
        | nil =>
          injection hc with hc1 hc2
          subst hc1
          exact dig_map_congr (lookupKey_setKey_ne hxy (.map rs2) es) t1
        | cons c0 c' =>
          injection hc with hc1 hc2
          subst hc1
          have hfr := hframe2 c' x y t1 t2 hc2 hxy
          simp only [List.cons_append]
          rw [YamlFile.dig, lookupKey_setKey_self, YamlFile.dig, hv]
          simpa using hfr

/-!  Merge-step characterisations and inversion. -/

theorem isMap_true_elim {v : Yaml} (h : v.isMap = true) : ∃ ws, v = .map ws := by
  cases v <;> first | exact ⟨_, rfl⟩ | simp [Yaml.isMap] at h

theorem merge_map (d : Yaml) (es : List (String × Yaml)) :
    YamlFile.merge d (.map es) = YamlFile.mergeEntries d es := rfl

theorem pyGet_nonmap {d : Yaml} (hd : d.isMap = false) (k : String) (dflt : Yaml) :
    YamlFile.pyGet d k dflt = .error .attrError := by
  cases d <;> first | rfl | simp [Yaml.isMap] at hd

theorem setItem_nonmap {d : Yaml} (hd : d.isMap = false) (k : String) (v : Yaml) :
    YamlFile.setItem d k v = .error .typeError := by
  cases d <;> first | rfl | simp [Yaml.isMap] at hd

theorem mergeEntries_cons_nonmap {v : Yaml} (hv : v.isMap = false) (d : Yaml)
    (k : String) (rest : List (String × Yaml)) :
    YamlFile.mergeEntries d ((k, v) :: rest) =
      match YamlFile.setItem d k v with
      | .error e => .error e
      | .ok d2 => YamlFile.mergeEntries d2 rest := by
  cases v with
  | map ws => simp [Yaml.isMap] at hv
  | null => rfl
  | bool b => rfl
  | int n => rfl
  | str s => rfl
  | seq xs => rfl

theorem mergeEntries_cons_map_eq (ds : List (String × Yaml)) (k : String)
    (ws rest : List (String × Yaml)) :
    YamlFile.mergeEntries (.map ds) ((k, .map ws) :: rest) =
      match YamlFile.mergeEntries ((lookupKey k ds).getD (.map [])) ws with
      | .error e => .error e
      | .ok m => YamlFile.mergeEntries (.map (setKey k m ds)) rest := by
  simp only [mergeEntries_cons_map, pyGet_map]
  cases hm : YamlFile.mergeEntries ((lookupKey k ds).getD (.map [])) ws with
  | error e => simp
  | ok m => simp [setItem_map]

theorem mergeEntries_nonmapBase {d : Yaml} (hd : d.isMap = false) (k : String)
    (v : Yaml) (rest : List (String × Yaml)) :
    ∃ e, YamlFile.mergeEntries d ((k, v) :: rest) = .error e := by
  cases hvm : v.isMap with
  | true =>
    obtain ⟨ws, rfl⟩ := isMap_true_elim hvm
    exact ⟨.attrError, by simp [mergeEntries_cons_map, pyGet_nonmap hd]⟩
  | false =>
    exact ⟨.typeError, by simp [mergeEntries_cons_nonmap hvm, setItem_nonmap hd]⟩

theorem mergeSingle_ok_elim {D D2 : Yaml} {k : String} {v : Yaml}
    (h : YamlFile.mergeEntries D [(k, v)] = .ok D2) :
    ∃ es, D = .map es ∧
      ((v.isMap = false ∧ D2 = .map (setKey k v es)) ∨
       (∃ ws m, v = .map ws ∧
          YamlFile.mergeEntries ((lookupKey k es).getD (.map [])) ws = .ok m ∧
          D2 = .map (setKey k m es))) := by
  cases D with
  | map es =>
    refine ⟨es, rfl, ?_⟩
    cases hvm : v.isMap with
    | true =>
      obtain ⟨ws, rfl⟩ := isMap_true_elim hvm
      rw [mergeEntries_cons_map_eq] at h
      cases hm : YamlFile.mergeEntries ((lookupKey k es).getD (.map [])) ws with
      | error e => simp [hm] at h
      | ok m =>
        simp only [hm, YamlFile.mergeEntries] at h
        injection h with h2
        exact Or.inr ⟨ws, m, rfl, hm, h2.symm⟩
    | false =>
      rw [mergeEntries_cons_nonmap hvm] at h
      simp only [setItem_map, YamlFile.mergeEntries] at h
      injection h with h2
      exact Or.inl ⟨rfl, h2.symm⟩
  | null =>
    obtain ⟨e, he⟩ := mergeEntries_nonmapBase (d := .null) rfl k v []
    rw [he] at h
    exact absurd h (by simp)
  | bool b =>
    obtain ⟨e, he⟩ := mergeEntries_nonmapBase (d := .bool b) rfl k v []
    rw [he] at h
    exact absurd h (by simp)
  | int n =>
    obtain ⟨e, he⟩ := mergeEntries_nonmapBase (d := .int n) rfl k v []
    rw [he] at h
    exact absurd h (by simp)
  | str s =>
    obtain ⟨e, he⟩ := mergeEntries_nonmapBase (d := .str s) rfl k v []
    rw [he] at h
    exact absurd h (by simp)
  | seq xs =>
    obtain ⟨e, he⟩ := mergeEntries_nonmapBase (d := .seq xs) rfl k v []
    rw [he] at h
    exact absurd h (by simp)

/-!  Merge never discards keys absent from the patch. -/

theorem mergeEntries_lookup_preserved :
    ∀ (es ds : List (String × Yaml)) (r : Yaml) (k : String),
      YamlFile.mergeEntries (.map ds) es = .ok r → lookupKey k es = none →
      ∃ rs, r = .map rs ∧ lookupKey k rs = lookupKey k ds := by
  intro es
  induction es with
  | nil =>
    intro ds r k h _
    have h2 : Except.ok (Yaml.map ds) = Except.ok r := h
    injection h2 with h3
    exact ⟨ds, h3.symm, rfl⟩
  | cons p rest ih =>
    obtain ⟨k1, v⟩ := p
    intro ds r k h hlk
    have hk1 : ¬ k1 = k := by
      intro he
      rw [lookupKey, if_pos he] at hlk
      exact absurd hlk (by simp)
    have hkne : k ≠ k1 := fun he => hk1 he.symm
    have hlk2 : lookupKey k rest = none := by
      rw [lookupKey, if_neg hk1] at hlk
      exact hlk
    cases hvm : v.isMap with
    | true =>
      obtain ⟨ws, rfl⟩ := isMap_true_elim hvm
      rw [mergeEntries_cons_map_eq] at h
      cases hm : YamlFile.mergeEntries ((lookupKey k1 ds).getD (.map [])) ws with
      | error e => simp [hm] at h
      | ok m =>
        simp only [hm] at h
        obtain ⟨rs, rfl, hpres⟩ := ih (setKey k1 m ds) r k h hlk2
        exact ⟨rs, rfl, by rw [hpres, lookupKey_setKey_ne hkne]⟩
    | false =>
      rw [mergeEntries_cons_nonmap hvm] at h
      simp only [setItem_map] at h
      obtain ⟨rs, rfl, hpres⟩ := ih (setKey k1 v ds) r k h hlk2
      exact ⟨rs, rfl, by rw [hpres, lookupKey_setKey_ne hkne]⟩

/-!  Frame property of merging a single-branch patch tree. -/

theorem merge_buildPatch_frame :
    ∀ (c : List String) (D : Yaml) (keys : List String) (V D2 : Yaml) (x y : String)
      (t1 t2 : List String),
      YamlFile.merge D (YamlFile.buildPatch keys V) = .ok D2 →
      keys = c ++ y :: t2 → x ≠ y →
      YamlFile.dig D2 (c ++ x :: t1) = YamlFile.dig D (c ++ x :: t1) := by
  intro c
  induction c with
  | nil =>
    intro D keys V D2 x y t1 t2 hm hk hxy
    subst hk
    simp only [List.nil_append] at hm
    obtain ⟨pv, hpw⟩ := buildPatch_cons y t2 V
    rw [hpw, merge_map] at hm
    obtain ⟨es, rfl, hcase⟩ := mergeSingle_ok_elim hm
    rcases hcase with ⟨_, rfl⟩ | ⟨ws, m, heq, hm2, rfl⟩
    · simp only [List.nil_append]
      exact dig_map_congr (lookupKey_setKey_ne hxy pv es) t1
    · simp only [List.nil_append]
      exact dig_map_congr (lookupKey_setKey_ne hxy m es) t1
  | cons k0 c' ih =>
    intro D keys V D2 x y t1 t2 hm hk hxy
    subst hk
    simp only [List.cons_append] at hm
    obtain ⟨z, zs, hz⟩ : ∃ z zs, c' ++ y :: t2 = z :: zs := by
      cases c' with
      | nil => exact ⟨y, t2, rfl⟩
      | cons a b => exact ⟨a, b ++ y :: t2, rfl⟩
    rw [show YamlFile.buildPatch (k0 :: (c' ++ y :: t2)) V
          = .map [(k0, YamlFile.buildPatch (c' ++ y :: t2) V)] by rw [hz]; rfl,
      merge_map] at hm
    obtain ⟨es, rfl, hcase⟩ := mergeSingle_ok_elim hm
    rcases hcase with ⟨hfalse, _⟩ | ⟨ws, m, hws, hm2, rfl⟩
    · exfalso
      obtain ⟨pv2, hpw2⟩ := buildPatch_cons z zs V
      rw [hz, hpw2] at hfalse
      simp [Yaml.isMap] at hfalse
    · have hL : YamlFile.dig (.map (setKey k0 m es)) (k0 :: (c' ++ x :: t1))
          = YamlFile.dig m (c' ++ x :: t1) := by
        simp [YamlFile.dig, lookupKey_setKey_self]
      cases hl : lookupKey k0 es with
      | some b0 =>
        have hm3 : YamlFile.merge b0 (YamlFile.buildPatch (c' ++ y :: t2) V) = .ok m := by
          rw [hws, merge_map]
          simpa [hl] using hm2
        have hfr := ih b0 (c' ++ y :: t2) V m x y t1 t2 hm3 rfl hxy
        have hR : YamlFile.dig (.map es) (k0 :: (c' ++ x :: t1))
            = YamlFile.dig b0 (c' ++ x :: t1) := by
          simp [YamlFile.dig, hl]
        simp only [List.cons_append]
        rw [hL, hR]
        exact hfr
      | none =>
        have hm3 : YamlFile.merge (.map []) (YamlFile.buildPatch (c' ++ y :: t2) V) = .ok m := by
          rw [hws, merge_map]
          simpa [hl] using hm2
        have hfr := ih (.map []) (c' ++ y :: t2) V m x y t1 t2 hm3 rfl hxy
        have hnil : YamlFile.dig (.map []) (c' ++ x :: t1) = .error .keyError := by
          cases c' with
          | nil => exact dig_nilMap_keyError x t1
          | cons c0 cs =>
            simp only [List.cons_append]
            exact dig_nilMap_keyError c0 (cs ++ x :: t1)
        have hR : YamlFile.dig (.map es) (k0 :: (c' ++ x :: t1)) = .error .keyError := by
          simp [YamlFile.dig, hl]
        simp only [List.cons_append]
        rw [hL, hR, hfr, hnil]

/-!  Wiring lemmas for `run_module`'s decide-and-mutate branches. -/

theorem runPresent_keyAdded {data : Yaml} {keys : List String} {V D2 : Yaml}
    (hmiss : YamlFile.dig data keys = .error .keyError)
    (hm : YamlFile.merge data (YamlFile.buildPatch keys V) = .ok D2) :
    YamlFile.runPresent data keys V = .ok (true, "key added", D2) := by
  simp [YamlFile.runPresent, hmiss, hm]

theorem runPresent_unchanged {data : Yaml} {keys : List String} {V current : Yaml}
    (hcur : YamlFile.dig data keys = .ok current) (heq : pyEq V current = true) :
    YamlFile.runPresent data keys V = .ok (false, "OK", data) := by
  simp [YamlFile.runPresent, hcur, heq]

theorem runPresent_valueChanged {data : Yaml} {keys : List String} {V current D2 : Yaml}
    (hcur : YamlFile.dig data keys = .ok current) (hne : pyEq V current = false)
    (hm : YamlFile.merge data (YamlFile.buildPatch keys V) = .ok D2) :
    YamlFile.runPresent data keys V = .ok (true, "value changed", D2) := by
  simp [YamlFile.runPresent, hcur, hne, hm]

theorem runPresent_typeError {data : Yaml} {keys : List String} {V : Yaml}
    (h : YamlFile.dig data keys = .error .typeError) :
    YamlFile.runPresent data keys V = .error .typeError := by
  simp [YamlFile.runPresent, h]

theorem runAbsent_removed {data : Yaml} {keys : List String} {D2 : Yaml}
    (h : YamlFile.delAt data keys = .ok D2) :
    YamlFile.runAbsent data keys = .ok (true, "key removed", D2) := by
  simp [YamlFile.runAbsent, h]

theorem runAbsent_unchanged {data : Yaml} {keys : List String}
    (h : YamlFile.delAt data keys = .error .keyError) :
    YamlFile.runAbsent data keys = .ok (false, "OK", data) := by
  simp [YamlFile.runAbsent, h]

theorem runAbsent_typeError {data : Yaml} {keys : List String}
    (h : YamlFile.delAt data keys = .error .typeError) :
    YamlFile.runAbsent data keys = .error .typeError := by
  simp [YamlFile.runAbsent, h]

theorem runModule_present_noDiff_ok {loaded : Yaml} {keys : List String}
    {value : Yaml} {changed : Bool} {msg : String} {d2 : Yaml}
    (h : YamlFile.runPresent (YamlFile.pyCoerce loaded) keys value
      = .ok (changed, msg, d2)) (rawText : String) :
    YamlFile.runModule rawText loaded keys value .present false
      = .ok ⟨changed, msg, d2, "", ""⟩ := by
  simp [YamlFile.runModule, h]

theorem runModule_present_noDiff_err {loaded : Yaml} {keys : List String}
    {value : Yaml} {e : PyErr}
    (h : YamlFile.runPresent (YamlFile.pyCoerce loaded) keys value = .error e)
    (rawText : String) :
    YamlFile.runModule rawText loaded keys value .present false = .error e := by
  simp [YamlFile.runModule, h]

theorem runModule_absent_noDiff_ok {loaded : Yaml} {keys : List String}
    {value : Yaml} {changed : Bool} {msg : String} {d2 : Yaml}
    (h : YamlFile.runAbsent (YamlFile.pyCoerce loaded) keys = .ok (changed, msg, d2))
    (rawText : String) :
    YamlFile.runModule rawText loaded keys value .absent false
      = .ok ⟨changed, msg, d2, "", ""⟩ := by
  simp [YamlFile.runModule, h]

theorem runModule_absent_noDiff_err {loaded : Yaml} {keys : List String}
    {value : Yaml} {e : PyErr}
    (h : YamlFile.runAbsent (YamlFile.pyCoerce loaded) keys = .error e)
    (rawText : String) :
    YamlFile.runModule rawText loaded keys value .absent false = .error e := by
  simp [YamlFile.runModule, h]

theorem keys_cons_of_dig_keyError {D : Yaml} {keys : List String}
    (h : YamlFile.dig D keys = .error .keyError) : ∃ k ks, keys = k :: ks := by
  cases keys with
  | nil => rw [YamlFile.dig] at h; exact absurd h (by simp)
  | cons k ks => exact ⟨k, ks, rfl⟩

/-!  Claim theorems. -/

/-- Counterexample to claim C1: the path `foo.bar` is not present in
`{"foo": 7}` (resolution finds no value there -- it raises `TypeError` on the
non-mapping intermediate), yet `state=present` does not return `changed=true`
with `key added`: the uncaught `TypeError` aborts the operation. -/
theorem C1_counterexample :
    YamlFile.dig (.map [("foo", .int 7)]) ["foo", "bar"] = .error .typeError ∧
    YamlFile.runModule "" (.map [("foo", .int 7)]) ["foo", "bar"] (.int 2)
      .present false = .error .typeError := ⟨rfl, rfl⟩

/-- Claim C1 amended: for every document `D`, dotted path `keys` at which the
resolver fails with `KeyError` (a mapping along the walk lacks the next
segment -- the code's notion of "key not present"), and well-formed value `V`,
running the edit with `state=present` returns `changed=true` with message
`key added` (the spec's `key_added`), the resolver re-reads `V` at the path
afterwards, and an immediately repeated identical application returns
`changed=false` with message `OK`. -/
theorem C1_present_add_idempotent (D V : Yaml) (keys : List String)
    (hmiss : YamlFile.dig D keys = .error .keyError) (hV : WF V = true) :
    ∃ rs,
      YamlFile.runModule "" D keys V .present false
        = .ok ⟨true, "key added", .map rs, "", ""⟩ ∧
      YamlFile.dig (.map rs) keys = .ok V ∧
      YamlFile.runModule "" (.map rs) keys V .present false
        = .ok ⟨false, "OK", .map rs, "", ""⟩ := by
  obtain ⟨k, ks, rfl⟩ := keys_cons_of_dig_keyError hmiss
  obtain ⟨es, rfl, _⟩ := dig_keyError_elim hmiss
  obtain ⟨rs, hm, hd⟩ := merge_buildPatch_add (k :: ks) (.map es) V hmiss hV
  refine ⟨rs, ?_, hd, ?_⟩
  · refine runModule_present_noDiff_ok ?_ ""
    rw [pyCoerce_map]
    exact runPresent_keyAdded hmiss hm
  · refine runModule_present_noDiff_ok ?_ ""
    rw [pyCoerce_map]
    exact runPresent_unchanged hd (pyEq_refl hV)

/-- Witness for C1: adding key `a` with value `7` to the empty document. -/
theorem C1_witness :
    ∃ rs,
      YamlFile.runModule "" (.map []) ["a"] (.int 7) .present false
        = .ok ⟨true, "key added", .map rs, "", ""⟩ ∧
      YamlFile.dig (.map rs) ["a"] = .ok (.int 7) ∧
      YamlFile.runModule "" (.map rs) ["a"] (.int 7) .present false
        = .ok ⟨false, "OK", .map rs, "", ""⟩ :=
  C1_present_add_idempotent (.map []) (.int 7) ["a"] rfl rfl

/-- Counterexample to claim C2: with existing value `{"x": 1}` at key `a` and
desired value `{"y": 2}`, the module reports `changed=true`, `value changed`,
but afterwards resolving `a` yields the deep merge `{"x": 1, "y": 2}`, not
exactly the desired `{"y": 2}` (neither structurally nor by Python `==`). -/
theorem C2_counterexample :
    YamlFile.runModule "" (.map [("a", .map [("x", .int 1)])]) ["a"]
        (.map [("y", .int 2)]) .present false
      = .ok ⟨true, "value changed",
          .map [("a", .map [("x", .int 1), ("y", .int 2)])], "", ""⟩ ∧
    YamlFile.dig (.map [("a", .map [("x", .int 1), ("y", .int 2)])]) ["a"]
      = .ok (.map [("x", .int 1), ("y", .int 2)]) ∧
    pyEq (.map [("x", .int 1), ("y", .int 2)]) (.map [("y", .int 2)]) = false ∧
    (Yaml.map [("x", .int 1), ("y", .int 2)]) ≠ .map [("y", .int 2)] := by
  refine ⟨rfl, rfl, rfl, ?_⟩
  intro h
  simp at h

/-- Claim C2 amended: for every document `D`, path `keys` present with value
`V1`, and desired value `V2` that differs (`V2 != V1` in Python) and is not a
mapping, `state=present` returns `changed=true` with message `value changed`
(the spec's `value_changed`) and the resolver afterwards yields exactly `V2`.
(When `V2` is a mapping the source deep-merges it into the old value instead
of replacing it -- see the counterexample.) -/
theorem C2_value_changed_nonmap (D V1 V2 : Yaml) (keys : List String)
    (hne : keys ≠ []) (hcur : YamlFile.dig D keys = .ok V1)
    (hdiff : pyEq V2 V1 = false) (hV2 : V2.isMap = false) :
    ∃ rs,
      YamlFile.runModule "" D keys V2 .present false
        = .ok ⟨true, "value changed", .map rs, "", ""⟩ ∧
      YamlFile.dig (.map rs) keys = .ok V2 := by
  obtain ⟨k, ks, rfl⟩ : ∃ k ks, keys = k :: ks := by
    cases keys with
    | nil => exact absurd rfl hne
    | cons k ks => exact ⟨k, ks, rfl⟩
  obtain ⟨es, v, rfl, hv, hd⟩ := dig_ok_elim hcur
  obtain ⟨rs, hm, hdig⟩ := merge_buildPatch_set (k :: ks) (.map es) V1 V2 (by simp)
    hcur hV2
  refine ⟨rs, ?_, hdig⟩
  refine runModule_present_noDiff_ok ?_ ""
  rw [pyCoerce_map]
  exact runPresent_valueChanged hcur hdiff hm

/-- Witness for the amended C2: replacing value `1` at key `a` by `5`. -/
theorem C2_witness :
    ∃ rs,
      YamlFile.runModule "" (.map [("a", .int 1)]) ["a"] (.int 5) .present false
        = .ok ⟨true, "value changed", .map rs, "", ""⟩ ∧
      YamlFile.dig (.map rs) ["a"] = .ok (.int 5) :=
  C2_value_changed_nonmap (.map [("a", .int 1)]) (.int 1) (.int 5) ["a"]
    (by simp) rfl rfl rfl

/-- Counterexample to claim C3: when the base holds the non-mapping `1` at key
`a` and the patch holds the mapping `{"x": 2}` there, `merge` does not replace
the base value -- it recurses into the non-mapping and raises `TypeError`. -/
theorem C3_counterexample :
    YamlFile.merge (.map [("a", .int 1)]) (.map [("a", .map [("x", .int 2)])])
      = .error .typeError := rfl

/-- Claim C3 amended: for a single patch entry `(k, v)`, `merge` recurses
exactly when the patch value `v` is a mapping (defaulting an absent base value
at `k` to `{}`); a non-mapping patch value replaces the base value outright
without error; but when the base holds a non-mapping at `k` and the patch
holds a nonempty mapping there, `merge` fails with an error instead of
replacing. -/
theorem C3_merge_step_cases (ds : List (String × Yaml)) (k : String) (v : Yaml) :
    (v.isMap = false →
       YamlFile.merge (.map ds) (.map [(k, v)]) = .ok (.map (setKey k v ds))) ∧
    (v.isMap = true →
       YamlFile.merge (.map ds) (.map [(k, v)])
         = match YamlFile.merge ((lookupKey k ds).getD (.map [])) v with
           | .error e => .error e
           | .ok m => .ok (.map (setKey k m ds))) ∧
    (∀ b, lookupKey k ds = some b → b.isMap = false → v.isMap = true →
       v ≠ .map [] →
       ∃ e, YamlFile.merge (.map ds) (.map [(k, v)]) = .error e) := by
  refine ⟨?_, ?_, ?_⟩
  · intro hv
    rw [merge_map]
    exact mergeEntries_single_nonmap hv ds k
  · intro hv
    obtain ⟨ws, rfl⟩ := isMap_true_elim hv
    rw [merge_map, mergeEntries_cons_map_eq, merge_map]
    cases hm : YamlFile.mergeEntries ((lookupKey k ds).getD (.map [])) ws with
    | error e => simp [hm]
    | ok m => simp [hm, YamlFile.mergeEntries]
  · intro b hb hbm hv hvne
    obtain ⟨ws, rfl⟩ := isMap_true_elim hv
    obtain ⟨⟨k1, w1⟩, ws', rfl⟩ : ∃ p ws', ws = p :: ws' := by
      cases ws with
      | nil => exact absurd rfl hvne
      | cons p ws' => exact ⟨p, ws', rfl⟩
    obtain ⟨e, he⟩ := mergeEntries_nonmapBase hbm k1 w1 ws'
    refine ⟨e, ?_⟩
    rw [merge_map, mergeEntries_cons_map_eq, hb]
    simp [he]

/-- Witness for the amended C3: all three cases at concrete inputs. -/
theorem C3_witness :
    YamlFile.merge (.map [("a", .int 1)]) (.map [("a", .int 2)])
      = .ok (.map [("a", .int 2)]) ∧
    YamlFile.merge (.map [("a", .map [("c", .int 2)])])
        (.map [("a", .map [("b", .int 1)])])
      = (match YamlFile.merge
            ((lookupKey "a" [("a", Yaml.map [("c", Yaml.int 2)])]).getD (.map []))
            (.map [("b", .int 1)]) with
         | .error e => .error e
         | .ok m => .ok (.map (setKey "a" m [("a", .map [("c", .int 2)])]))) ∧
    (∃ e, YamlFile.merge (.map [("q", .int 3)]) (.map [("q", .map [("x", .int 4)])])
      = .error e) := by
  refine ⟨?_, ?_, ?_⟩
  · exact (C3_merge_step_cases [("a", .int 1)] "a" (.int 2)).1 rfl
  · exact (C3_merge_step_cases [("a", .map [("c", .int 2)])] "a"
      (.map [("b", .int 1)])).2.1 rfl
  · exact (C3_merge_step_cases [("q", .int 3)] "q" (.map [("x", .int 4)])).2.2
      (.int 3) rfl rfl rfl (by simp)

/-- Counterexample to claim C4: resolving path `foo.bar` in `{"foo": 1}` (a
non-mapping at an intermediate segment) does not fail with `KeyError` -- it
raises `TypeError`, which `run_module` does not catch, so it surfaces to the
caller as a failure of the edit operation. -/
theorem C4_counterexample :
    YamlFile.dig (.map [("foo", .int 1)]) ["foo", "bar"] = .error .typeError ∧
    YamlFile.runModule "" (.map [("foo", .int 1)]) ["foo", "bar"] (.int 2)
      .present false = .error .typeError := ⟨rfl, rfl⟩

/-- Claim C4 amended: resolution fails with `KeyError` only when a mapping
along the walk lacks the next segment; that `KeyError` is handled in both the
present branch (key is added, operation succeeds) and the absent branch
(nothing to do, `OK`), never surfacing as a failure; a non-mapping value at an
intermediate segment instead raises `TypeError`, which propagates to the
caller as a failure in both branches. -/
theorem C4_keyError_internal_typeError_escapes :
    (∀ (D V : Yaml) (keys : List String),
       YamlFile.dig D keys = .error .keyError → WF V = true →
       ∃ r, YamlFile.runModule "" D keys V .present false = .ok r ∧
         r.changed = true ∧ r.msg = "key added") ∧
    (∀ (ds : List (String × Yaml)) (keys : List String) (V : Yaml),
       YamlFile.delAt (.map ds) keys = .error .keyError →
       YamlFile.runModule "" (.map ds) keys V .absent false
         = .ok ⟨false, "OK", .map ds, "", ""⟩) ∧
    (∀ (ds : List (String × Yaml)) (keys : List String) (V : Yaml),
       YamlFile.dig (.map ds) keys = .error .typeError →
       YamlFile.runModule "" (.map ds) keys V .present false = .error .typeError) ∧
    (∀ (ds : List (String × Yaml)) (keys : List String) (V : Yaml),
       YamlFile.delAt (.map ds) keys = .error .typeError →
       YamlFile.runModule "" (.map ds) keys V .absent false = .error .typeError) := by
  refine ⟨?_, ?_, ?_, ?_⟩
  · intro D V keys hmiss hV
    obtain ⟨k, ks, rfl⟩ := keys_cons_of_dig_keyError hmiss
    obtain ⟨es, rfl, _⟩ := dig_keyError_elim hmiss
    obtain ⟨rs, hm, _⟩ := merge_buildPatch_add (k :: ks) (.map es) V hmiss hV
    refine ⟨⟨true, "key added", .map rs, "", ""⟩, ?_, rfl, rfl⟩
    refine runModule_present_noDiff_ok ?_ ""
    rw [pyCoerce_map]
    exact runPresent_keyAdded hmiss hm
  · intro ds keys V h
    refine runModule_absent_noDiff_ok ?_ ""
    rw [pyCoerce_map]
    exact runAbsent_unchanged h
  · intro ds keys V h
    refine runModule_present_noDiff_err ?_ ""
    rw [pyCoerce_map]
    exact runPresent_typeError h
  · intro ds keys V h
    refine runModule_absent_noDiff_err ?_ ""
    rw [pyCoerce_map]
    exact runAbsent_typeError h

/-- Witness for the amended C4: all four cases at concrete inputs. -/
theorem C4_witness :
    (∃ r, YamlFile.runModule "" (.map []) ["a"] (.int 1) .present false = .ok r ∧
       r.changed = true ∧ r.msg = "key added") ∧
    YamlFile.runModule "" (.map [("b", .int 2)]) ["a"] (.int 1) .absent false
      = .ok ⟨false, "OK", .map [("b", .int 2)], "", ""⟩ ∧
    YamlFile.runModule "" (.map [("a", .int 5)]) ["a", "b"] (.int 1) .present false
      = .error .typeError ∧
    YamlFile.runModule "" (.map [("a", .int 5)]) ["a", "b"] (.int 1) .absent false
      = .error .typeError := by
  obtain ⟨h1, h2, h3, h4⟩ := C4_keyError_internal_typeError_escapes
  exact ⟨h1 (.map []) (.int 1) ["a"] rfl rfl,
    h2 [("b", .int 2)] ["a"] (.int 1) rfl,
    h3 [("a", .int 5)] ["a", "b"] (.int 1) rfl,
    h4 [("a", .int 5)] ["a", "b"] (.int 1) rfl⟩

/-- Claim C5: `merge` (whose in-place mutation of its base is modelled by
returning the updated base) never discards a key of the base that is absent
from the patch -- its value is preserved exactly; for a single-branch patch
built from one dotted path, every path that deviates from the patched path
resolves to the same result as before the merge; and concretely, merging patch
`{"a": {"b": 1}}` into base `{"a": {"c": 2}}` yields a document equal (by
Python `==`) to `{"a": {"b": 1, "c": 2}}`. -/
theorem C5_merge_preserves_siblings :
    (∀ (ds es : List (String × Yaml)) (r : Yaml) (k : String),
       YamlFile.merge (.map ds) (.map es) = .ok r → lookupKey k es = none →
       ∃ rs, r = .map rs ∧ lookupKey k rs = lookupKey k ds) ∧
    (∀ (D : Yaml) (keys : List String) (V D2 : Yaml) (c : List String)
       (x y : String) (t1 t2 : List String),
       YamlFile.merge D (YamlFile.buildPatch keys V) = .ok D2 →
       keys = c ++ y :: t2 → x ≠ y →
       YamlFile.dig D2 (c ++ x :: t1) = YamlFile.dig D (c ++ x :: t1)) ∧
    (YamlFile.merge (.map [("a", .map [("c", .int 2)])])
        (.map [("a", .map [("b", .int 1)])])
      = .ok (.map [("a", .map [("c", .int 2), ("b", .int 1)])]) ∧
     pyEq (.map [("a", .map [("c", .int 2), ("b", .int 1)])])
       (.map [("a", .map [("b", .int 1), ("c", .int 2)])]) = true) := by
  refine ⟨?_, ?_, rfl, rfl⟩
  · intro ds es r k hm hlk
    exact mergeEntries_lookup_preserved es ds r k hm hlk
  · intro D keys V D2 c x y t1 t2 hm hk hxy
    exact merge_buildPatch_frame c D keys V D2 x y t1 t2 hm hk hxy

/-- Witness for C5: sibling preservation and the frame property at concrete
inputs. -/
theorem C5_witness :
    (∃ rs, (Yaml.map [("q", Yaml.int 5), ("p", Yaml.int 1)]) = Yaml.map rs ∧
       lookupKey "q" rs = lookupKey "q" [("q", Yaml.int 5)]) ∧
    YamlFile.dig (.map [("a", .map [("z", .int 9), ("b", .int 1)])]) ["a", "z"]
      = YamlFile.dig (.map [("a", .map [("z", .int 9)])]) ["a", "z"] := by
  obtain ⟨h1, h2, _⟩ := C5_merge_preserves_siblings
  constructor
  · exact h1 [("q", .int 5)] [("p", .int 1)]
      (.map [("q", .int 5), ("p", .int 1)]) "q" rfl rfl
  · exact h2 (.map [("a", .map [("z", .int 9)])]) ["a", "b"] (.int 1)
      (.map [("a", .map [("z", .int 9), ("b", .int 1)])]) ["a"] "z" "b" [] []
      rfl rfl (by simp)

/-- Claim C6: for every document `D` and nonempty path `keys` present in `D`,
`state=absent` removes exactly the leaf at the path -- afterwards the resolver
fails with `KeyError` there while every deviating path resolves as before --
and returns `changed=true` with message `key removed` (the spec's
`key_removed`); a second application on the result returns `changed=false`
with message `OK`. -/
theorem C6_absent_removes_idempotent (D W V : Yaml) (keys : List String)
    (hne : keys ≠ []) (hW : YamlFile.dig D keys = .ok W) :
    ∃ rs,
      YamlFile.runModule "" D keys V .absent false
        = .ok ⟨true, "key removed", .map rs, "", ""⟩ ∧
      YamlFile.dig (.map rs) keys = .error .keyError ∧
      (∀ c x y t1 t2, keys = c ++ y :: t2 → x ≠ y →
        YamlFile.dig (.map rs) (c ++ x :: t1) = YamlFile.dig D (c ++ x :: t1)) ∧
      YamlFile.runModule "" (.map rs) keys V .absent false
        = .ok ⟨false, "OK", .map rs, "", ""⟩ := by
  obtain ⟨k, ks, rfl⟩ : ∃ k ks, keys = k :: ks := by
    cases keys with
    | nil => exact absurd rfl hne
    | cons k ks => exact ⟨k, ks, rfl⟩
  obtain ⟨es, v, rfl, hv, hd⟩ := dig_ok_elim hW
  obtain ⟨rs, hdel, hdig, hdelb, hframe⟩ := delAt_of_dig (k :: ks) es W hW (by simp)
  refine ⟨rs, ?_, hdig, hframe, ?_⟩
  · refine runModule_absent_noDiff_ok ?_ ""
    rw [pyCoerce_map]
    exact runAbsent_removed hdel
  · refine runModule_absent_noDiff_ok ?_ ""
    rw [pyCoerce_map]
    exact runAbsent_unchanged hdelb

/-- Witness for C6: removing key `a` from `{"a": 1, "b": 2}`. -/
theorem C6_witness :
    ∃ rs,
      YamlFile.runModule "" (.map [("a", .int 1), ("b", .int 2)]) ["a"] .null
          .absent false
        = .ok ⟨true, "key removed", .map rs, "", ""⟩ ∧
      YamlFile.dig (.map rs) ["a"] = .error .keyError ∧
      (∀ c x y t1 t2, ["a"] = c ++ y :: t2 → x ≠ y →
        YamlFile.dig (.map rs) (c ++ x :: t1)
          = YamlFile.dig (.map [("a", .int 1), ("b", .int 2)]) (c ++ x :: t1)) ∧
      YamlFile.runModule "" (.map rs) ["a"] .null .absent false
        = .ok ⟨false, "OK", .map rs, "", ""⟩ :=
  C6_absent_removes_idempotent (.map [("a", .int 1), ("b", .int 2)]) (.int 1)
    .null ["a"] (by simp) rfl

/-- Counterexample to claim C7: the filter `dig` raises an intermediate error
after a miss when keys remain and the default (here the default `None`) is not
a mapping: looking up `b` then `c` in `{"a": 1}` misses at `b`, continues
against `None`, and `.get` on `None` raises `AttributeError`. -/
theorem C7_counterexample :
    FilterCore.dig (.map [("a", .int 1)]) ["b", "c"] .null = .error .attrError :=
  rfl

/-- Claim C7 amended: the filter `dig` (whose keys are passed as one sequence
argument) performs get-with-default lookups: a miss itself never raises and
lookup continues against the default-valued container, the final value or
default is returned, and both concrete scenarios hold; but an error-free
result is only guaranteed while every value reached before the last key is a
mapping -- a non-mapping default reached mid-walk raises `AttributeError`
(see the counterexample). -/
theorem C7_dig_default_lookup :
    FilterCore.dig (.map [("a", .map [("b", .int 5)])]) ["a", "b"] .null
      = .ok (.int 5) ∧
    FilterCore.dig (.map [("a", .map [])]) ["a", "b"] (.int 0) = .ok (.int 0) ∧
    (∀ (es : List (String × Yaml)) (k : String) (ks : List String) (dflt : Yaml),
       lookupKey k es = none →
       FilterCore.dig (.map es) (k :: ks) dflt = FilterCore.dig dflt ks dflt) ∧
    (∀ (es : List (String × Yaml)) (k : String) (dflt : Yaml),
       FilterCore.dig (.map es) [k] dflt = .ok ((lookupKey k es).getD dflt)) := by
  refine ⟨rfl, rfl, ?_, ?_⟩
  · intro es k ks dflt h
    rw [FilterCore.dig, h]
    rfl
  · intro es k dflt
    rw [FilterCore.dig]
    cases (lookupKey k es).getD dflt <;> rfl

/-- Witness for the amended C7: the universally quantified conjuncts at
concrete inputs. -/
theorem C7_witness :
    FilterCore.dig (.map [("a", .int 1)]) ["b"] (.int 0)
      = FilterCore.dig (.int 0) [] (.int 0) ∧
    FilterCore.dig (.map [("a", .int 1)]) ["a"] (.int 0)
      = .ok ((lookupKey "a" [("a", Yaml.int 1)]).getD (.int 0)) := by
  obtain ⟨_, _, h3, h4⟩ := C7_dig_default_lookup
  exact ⟨h3 [("a", .int 1)] "b" [] (.int 0) rfl, h4 [("a", .int 1)] "a" (.int 0)⟩

/-- Claim C8 (code bug): when diff reporting is requested, the source's
after-snapshot block `with StringIO as buff:` (yaml_file.py line 218) enters a
`with` statement on the `StringIO` class itself, which is not a context
manager, so the operation raises `TypeError` instead of producing the
documented diff record; here evaluated at a concrete input. -/
theorem C8_diff_requested_crashes :
    YamlFile.runModule "foo: 1\n" (.map [("foo", .int 1)]) ["bar"] (.int 2)
      .present true = .error .typeError := rfl

/-- Counterexample to claim C9: the filter registry returned to the templating
engine contains exactly one name, `dig`; no `map_format` is registered. -/
theorem C9_counterexample :
    FilterCore.filters.map Prod.fst = ["dig"] ∧
    "map_format" ∉ FilterCore.filters.map Prod.fst := by
  refine ⟨rfl, ?_⟩
  rw [show FilterCore.filters.map Prod.fst = ["dig"] from rfl]
  decide

/-- Claim C9 amended: the template helper surface registers exactly one named
function, `dig` (the nested get-with-default lookup), into the
lookup-by-name function table returned to the templating engine. -/
theorem C9_filters_registry :
    FilterCore.filters = [("dig", FilterCore.dig)] ∧
    FilterCore.filters.length = 1 := ⟨rfl, rfl⟩

/-- Counterexample to claim C10: a destination whose decoded root is the
non-mapping `null` (an empty file) or the non-mapping `0` is not treated as an
error -- the falsy root is silently coerced to the empty mapping by
`yaml.load(data) or {}` and the edit proceeds. -/
theorem C10_counterexample :
    YamlFile.runModule "" .null ["a"] (.int 1) .present false
      = .ok ⟨true, "key added", .map [("a", .int 1)], "", ""⟩ ∧
    YamlFile.runModule "" (.int 0) ["a"] (.int 1) .present false
      = .ok ⟨true, "key added", .map [("a", .int 1)], "", ""⟩ := ⟨rfl, rfl⟩

/-- Claim C10 amended: a falsy decoded root (`null`, `false`, `0`, `""`, `[]`,
`{}`) is coerced to the empty mapping and the operation proceeds on it; a
truthy non-mapping root makes the operation fail, with an uncaught `TypeError`
raised during resolution or deletion, under both `state=present` and
`state=absent`. -/
theorem C10_nonmapping_root :
    (∀ (d0 : Yaml) (keys : List String) (v : Yaml) (st : YamlFile.St),
       pyTruthy d0 = false →
       YamlFile.runModule "" d0 keys v st false
         = YamlFile.runModule "" (.map []) keys v st false) ∧
    (∀ (d0 : Yaml) (keys : List String) (v : Yaml),
       pyTruthy d0 = true → d0.isMap = false → keys ≠ [] →
       YamlFile.runModule "" d0 keys v .present false = .error .typeError ∧
       YamlFile.runModule "" d0 keys v .absent false = .error .typeError) := by
  constructor
  · intro d0 keys v st h
    have hco : YamlFile.pyCoerce d0 = .map [] := by
      simp [YamlFile.pyCoerce, h]
    simp only [YamlFile.runModule, hco, pyCoerce_map]
  · intro d0 keys v hT hM hne
    have hco : YamlFile.pyCoerce d0 = d0 := by simp [YamlFile.pyCoerce, hT]
    obtain ⟨k, ks, rfl⟩ : ∃ k ks, keys = k :: ks := by
      cases keys with
      | nil => exact absurd rfl hne
      | cons k ks => exact ⟨k, ks, rfl⟩
    constructor
    · refine runModule_present_noDiff_err ?_ ""
      rw [hco]
      refine runPresent_typeError ?_
      cases d0 <;> first | rfl | simp [Yaml.isMap] at hM
    · refine runModule_absent_noDiff_err ?_ ""
      rw [hco]
      refine runAbsent_typeError ?_
      cases ks with
      | nil => cases d0 <;> first | rfl | simp [Yaml.isMap] at hM
      | cons k2 ks2 => cases d0 <;> first | rfl | simp [Yaml.isMap] at hM

/-- Witness for the amended C10: a falsy root proceeds as the empty document;
a truthy non-mapping root fails in both states. -/
theorem C10_witness :
    YamlFile.runModule "" .null ["z"] (.int 3) .absent false
      = YamlFile.runModule "" (.map []) ["z"] (.int 3) .absent false ∧
    (YamlFile.runModule "" (.str "abc") ["a"] (.int 1) .present false
        = .error .typeError ∧
     YamlFile.runModule "" (.str "abc") ["a"] (.int 1) .absent false
        = .error .typeError) := by
  obtain ⟨h1, h2⟩ := C10_nonmapping_root
  exact ⟨h1 .null ["z"] (.int 3) .absent rfl,
    h2 (.str "abc") ["a"] (.int 1) rfl rfl (by simp)⟩

end YamlSpec
